import Mathlib

/-!
Verification development for the Functions-Solver expression pipeline
(lexer, Pratt parser, numeric evaluator, symbolic conversion, adaptive
sampler).  Each definition is a shallow embedding of the corresponding
Python definition; Python numbers (int | float) are idealized as exact
rationals, which agree with float semantics on all small-integer inputs
exercised here.
-/

/-- Token kinds with their payloads; mirrors `token.py`'s `Token(type, value)`
with the canonical value each kind carries (operators carry their spelling,
numbers their numeric value, variables and functions their name). -/
inductive Tok where
  | number (value : ℚ)
  | var (value : String)
  | minus
  | plus
  | asterisk
  | slash
  | exponent
  | lparen
  | rparen
  | dot
  | function (value : String)
deriving DecidableEq, Repr

/-- Expression-tree nodes; mirrors the five `ASTNode` subclasses in `ast.py`. -/
inductive AST where
  | numberLiteral (value : ℚ)
  | var (value : String)
  | prefixExpression (operator : String) (operand : AST)
  | infixExpression (left : AST) (operator : String) (right : AST)
  | functionCall (function : String) (parameter : AST)
deriving DecidableEq, Repr

/-- Error raised by the parser; `ParserError.__init__` formats the message as
`"ParserError: {message}"`. -/
def parserErrorMsg (message : String) : String := "ParserError: " ++ message

/-- Parser outcome errors.  `fuelExhausted` is an artifact of the fuel-based
embedding of the recursive-descent parser; `parseTokens` supplies enough fuel
that it never occurs (lemma `parseExpression_sufficient`). -/
inductive PErr where
  | fuelExhausted
  | err (msg : String)
deriving DecidableEq, Repr

instance {ε α : Type} [DecidableEq ε] [DecidableEq α] : DecidableEq (Except ε α)
  | .ok a, .ok b => if h : a = b then .isTrue (by rw [h]) else .isFalse (by simp [h])
  | .ok _, .error _ => .isFalse (by simp)
  | .error _, .ok _ => .isFalse (by simp)
  | .error a, .error b => if h : a = b then .isTrue (by rw [h]) else .isFalse (by simp [h])

-- These four rational operations ship as irreducible, which only blocks the
-- elaborator's evaluation during `decide`; making them semireducible lets
-- concrete rational computations be checked by `decide`/`rfl`.
set_option allowUnsafeReducibility true in
attribute [semireducible] Rat.add Rat.sub Rat.mul Rat.inv

/-- The `precedences` table of `parser.py`; `getPrecedence` returns 0 for any
token kind absent from the table (number, rparen, dot). -/
def precedence : Tok → Nat
  | .plus => 1
  | .minus => 1
  | .asterisk => 2
  | .slash => 2
  | .exponent => 3
  | .var _ => 4
  | .lparen => 4
  | .function _ => 4
  | _ => 0

/-- The `value` field of a token as a string, as used in parser messages and
as the operator stored in infix nodes. -/
def tokValue : Tok → String
  | .number v => toString v
  | .var n => n
  | .minus => "-"
  | .plus => "+"
  | .asterisk => "*"
  | .slash => "/"
  | .exponent => "^"
  | .lparen => "("
  | .rparen => ")"
  | .dot => "."
  | .function n => n

/-- Control point of the recursive-descent parser: which `Parser` method the
embedding is currently executing.  `expr prec` is `parseExpression(prec)`
before its prefix dispatch; `pfx tok` is the prefix-handler dispatch on `tok`
(the `prefixFunctions` table); `paren` is `parseParen`; `fn name` is
`parseFunction` after reading a function token; `loop prec left` is the while
loop of `parseExpression` (the `infixFunctions` dispatch). -/
inductive PMode where
  | expr (prec : Nat)
  | pfx (tok : Tok)
  | paren
  | fn (name : String)
  | loop (prec : Nat) (left : AST)
deriving DecidableEq, Repr

/-- One step of the mutually recursive `Parser` methods of `parser.py`, with
`recur` standing for the recursive calls.  Branch by branch:
`expr` is `parseExpression` (consume one token, run its prefix handler, then
enter the infix loop); `pfx` is the prefix-handler table — number →
`parseNumber`, variable → `parseVariable`, minus → `parsePrefixExpression`
(operand parsed at base precedence 0), plus → the lambda that just parses the
following expression, lparen → `parseParen`, function → `parseFunction`,
anything else → "No prefix function"; `paren` is `parseParen` (a next token
that exists but is not rparen raises, a missing one at end-of-input is
tolerated, the cursor advances past it either way); `fn` is `parseFunction`
(require lparen, then `parseParen`); `loop` is the while loop of
`parseExpression` — while the next token binds tighter than `prec`, binary
operators run `parseInfixExpression` (right operand at the operator's own
precedence, except exponent at precedence - 1), and variable/lparen/function
tokens are left unconsumed and run `parseImplicitMultiplication` (right
operand at asterisk precedence). -/
def parseStep (ts : List Tok) (recur : PMode → Nat → Except PErr (AST × Nat))
    (mode : PMode) (cur : Nat) : Except PErr (AST × Nat) :=
  match mode with
  | .expr prec =>
    match ts[cur]? with
    | none => .error (.err (parserErrorMsg "Nothing to parse at the end of the input"))
    | some tok =>
      match recur (.pfx tok) (cur + 1) with
      | .error e => .error e
      | .ok (left, cur') => recur (.loop prec left) cur'
  | .pfx tok =>
    match tok with
    | .number v => .ok (.numberLiteral v, cur)
    | .var n => .ok (.var n, cur)
    | .minus =>
      match recur (.expr 0) cur with
      | .error e => .error e
      | .ok (operand, cur') => .ok (.prefixExpression "-" operand, cur')
    | .plus => recur (.expr 0) cur
    | .lparen => recur .paren cur
    | .function n => recur (.fn n) cur
    | t => .error (.err (parserErrorMsg ("No prefix function for " ++ tokValue t)))
  | .paren =>
    match recur (.expr 0) cur with
    | .error e => .error e
    | .ok (node, cur') =>
      match ts[cur']? with
      | some t =>
        if t = .rparen then .ok (node, cur' + 1)
        else .error (.err (parserErrorMsg "Expected right parenthesis"))
      | none => .ok (node, cur' + 1)
  | .fn name =>
    match ts[cur]? with
    | none => .error (.err (parserErrorMsg "Expected left parenthesis"))
    | some t =>
      if t = .lparen then
        match recur .paren (cur + 1) with
        | .error e => .error e
        | .ok (arg, cur') => .ok (.functionCall name arg, cur')
      else .error (.err (parserErrorMsg "Expected left parenthesis"))
  | .loop prec left =>
    match ts[cur]? with
    | none => .ok (left, cur)
    | some tok =>
      if prec < precedence tok then
        match tok with
        | .plus | .minus | .asterisk | .slash =>
          match recur (.expr (precedence tok)) (cur + 1) with
          | .error e => .error e
          | .ok (right, cur') =>
            recur (.loop prec (.infixExpression left (tokValue tok) right)) cur'
        | .exponent =>
          match recur (.expr (precedence Tok.exponent - 1)) (cur + 1) with
          | .error e => .error e
          | .ok (right, cur') =>
            recur (.loop prec (.infixExpression left "^" right)) cur'
        | .var _ | .lparen | .function _ =>
          match recur (.expr (precedence Tok.asterisk)) cur with
          | .error e => .error e
          | .ok (right, cur') =>
            recur (.loop prec (.infixExpression left "*" right)) cur'
        | _ =>
          -- dead branch: every other kind has precedence 0, so the guard fails
          .error (.err "KeyError")
      else .ok (left, cur)

/-- Fuel-indexed interpreter tying `parseStep`'s recursion knot; each step of
the Python recursion costs one unit of fuel. -/
def parseGo (fuel : Nat) (ts : List Tok) (mode : PMode) (cur : Nat) :
    Except PErr (AST × Nat) :=
  match fuel with
  | 0 => .error .fuelExhausted
  | fuel + 1 => parseStep ts (parseGo fuel ts) mode cur

/-- `Parser.parseExpression` with a given minimum precedence. -/
def parseExpression (fuel : Nat) (ts : List Tok) (prec : Nat) (cur : Nat) :
    Except PErr (AST × Nat) :=
  parseGo fuel ts (.expr prec) cur

/-- `Parser.parseParen`. -/
def parseParen (fuel : Nat) (ts : List Tok) (cur : Nat) : Except PErr (AST × Nat) :=
  parseGo fuel ts .paren cur

/-- `Parser.parse`: parse one expression from position 0 and reject leftover
tokens.  The fuel `3 * length + 3` is enough for the recursion to complete
(lemma `parseExpression_sufficient`). -/
def parseTokens (ts : List Tok) : Except PErr AST :=
  match parseExpression (3 * ts.length + 3) ts 0 0 with
  | .error e => .error e
  | .ok (tree, cur) =>
    if cur < ts.length then .error (.err (parserErrorMsg "Not a valid expression"))
    else .ok tree


/-- Error messages of `LexerError`, formatted as in `LexerError.__init__`
(`position` is 1-based, computed as `curPosition + 1` at the raise site). -/
def lexerErrorMsg (position : Nat) (message : String) : String :=
  "LexerError at position " ++ toString position ++ ": " ++ message

/-- Numeric value of the digits-and-dot characters accumulated by
`Lexer.read_number` (`int(num)` or `float(num)`; both idealized as ℚ). -/
def numValue (ds : List Char) : ℚ :=
  let intPart := ds.takeWhile (· ≠ '.')
  let fracPart := (ds.dropWhile (· ≠ '.')).drop 1
  let toNatVal : List Char → Nat := fun l => l.foldl (fun a c => 10 * a + (c.toNat - '0'.toNat)) 0
  (toNatVal intPart : ℚ) + (toNatVal fracPart : ℚ) / (10 : ℚ) ^ fracPart.length

/-- The scanning loop of `Lexer.read_number`, started on the rest of the text
with `hasDot` recording whether a decimal point was consumed already (the
first scanned character, a digit, is consumed by the caller).  Returns the
consumed characters and the rest, or the "Multiple decimal points" error.  A
`.` qualifies only when immediately followed by a digit; otherwise the scan
stops and leaves it unconsumed. -/
def scanNum (pos : Nat) (hasDot : Bool) : List Char → Except String (List Char × List Char)
  | [] => .ok ([], [])
  | c :: rest =>
    if c.isDigit then
      match scanNum (pos + 1) hasDot rest with
      | .error e => .error e
      | .ok (ds, r) => .ok (c :: ds, r)
    else if c = '.' then
      match rest with
      | d :: _ =>
        if d.isDigit then
          if hasDot then .error (lexerErrorMsg (pos + 1) "Multiple decimal points")
          else
            match scanNum (pos + 1) true rest with
            | .error e => .error e
            | .ok (ds, r) => .ok (c :: ds, r)
        else .ok ([], c :: rest)
      | [] => .ok ([], c :: rest)
    else .ok ([], c :: rest)

/-- The scanning loop of `Lexer.lex`, over the remaining characters, with
`varC` the variable symbol and `pos` the 0-based position of the head
character (used only in error messages).  Case order follows the Python
`match`: variable symbol, digit (`read_number`), whitespace, the single-char
operators, parentheses, alphabetic (`read_function`, consuming a run of
alphanumerics), standalone dot, otherwise "Invalid character".  `fuel` is an
embedding artifact: every step consumes at least one character, so
`lexText`'s `length + 1` of it is enough, and the claims below only ever
apply the lexer to concrete strings where the computed token list certifies
that the fuel sufficed. -/
def lexRun (fuel : Nat) (varC : Char) (pos : Nat) (l : List Char) : Except String (List Tok) :=
  match fuel with
  | 0 => .error "lexer fuel exhausted"
  | fuel + 1 =>
  match l with
  | [] => .ok []
  | c :: rest =>
    if c = varC then
      match lexRun fuel varC (pos + 1) rest with
      | .error e => .error e
      | .ok toks => .ok (.var "x" :: toks)
    else if c.isDigit then
      match scanNum (pos + 1) false rest with
      | .error e => .error e
      | .ok (ds, r) =>
        match lexRun fuel varC (pos + 1 + ds.length) r with
        | .error e => .error e
        | .ok toks => .ok (.number (numValue (c :: ds)) :: toks)
    else if c.isWhitespace then
      lexRun fuel varC (pos + 1 + (rest.takeWhile Char.isWhitespace).length)
        (rest.dropWhile Char.isWhitespace)
    else if c = '-' then
      match lexRun fuel varC (pos + 1) rest with
      | .error e => .error e
      | .ok toks => .ok (.minus :: toks)
    else if c = '+' then
      match lexRun fuel varC (pos + 1) rest with
      | .error e => .error e
      | .ok toks => .ok (.plus :: toks)
    else if c = '*' then
      match lexRun fuel varC (pos + 1) rest with
      | .error e => .error e
      | .ok toks => .ok (.asterisk :: toks)
    else if c = '/' then
      match lexRun fuel varC (pos + 1) rest with
      | .error e => .error e
      | .ok toks => .ok (.slash :: toks)
    else if c = '^' then
      match lexRun fuel varC (pos + 1) rest with
      | .error e => .error e
      | .ok toks => .ok (.exponent :: toks)
    else if c = '(' then
      match lexRun fuel varC (pos + 1) rest with
      | .error e => .error e
      | .ok toks => .ok (.lparen :: toks)
    else if c = ')' then
      match lexRun fuel varC (pos + 1) rest with
      | .error e => .error e
      | .ok toks => .ok (.rparen :: toks)
    else if c.isAlpha then
      match lexRun fuel varC (pos + 1 + (rest.takeWhile Char.isAlphanum).length)
          (rest.dropWhile Char.isAlphanum) with
      | .error e => .error e
      | .ok toks =>
        .ok (.function (String.mk (c :: rest.takeWhile Char.isAlphanum)) :: toks)
    else if c = '.' then
      match lexRun fuel varC (pos + 1) rest with
      | .error e => .error e
      | .ok toks => .ok (.dot :: toks)
    else .error (lexerErrorMsg (pos + 1) "Invalid character")

/-- `Lexer.__init__` + `Lexer.lex` over the full input text with variable
symbol `variable_symbol`. -/
def lexText (variable_symbol : Char) (text : String) : Except String (List Tok) :=
  lexRun (text.toList.length + 1) variable_symbol 0 text.toList

/-- `helpers.parse_expression`: lex the text with the default variable symbol
`x` and parse the resulting tokens.  Lexer and parser failures are both
surfaced as their formatted message strings (the Python types `LexerError`
and `ParserError` are distinguishable by the message prefix). -/
def parse_expression (expr : String) : Except String AST :=
  match lexText 'x' expr with
  | .error e => .error e
  | .ok toks =>
    match parseTokens toks with
    | .error (.err m) => .error m
    | .error .fuelExhausted => .error "fuelExhausted"
    | .ok tree => .ok tree




/-- Errors raised during numeric evaluation (`evaluator.py`).  The class
`UnknownFunctionError` (in `src/calc/evaluator/UnknownFunctionError.py`)
subclasses `Exception` directly — not `EvaluatorError` — so an
`except EvaluatorError` clause does not catch it; `unknownFunctionError`
carries the name, and its exception message is `"Unknown Function: {name}"`.
Modelled from the spec: the file defining the `EvaluatorError` class itself is
absent from the sources (only its raise sites, tests and callers are present);
per the spec's strictly layered error taxonomy it is its own exception type,
distinct from (and not an ancestor or descendant of) `UnknownFunctionError`,
carrying the message `"EvaluatorError: {message}"`. -/
inductive EvalErr where
  | evaluatorError (message : String)
  | unknownFunctionError (name : String)
deriving DecidableEq, Repr

/-- The real-valued library functions the evaluator delegates to (`math.sqrt`,
`math.log10`, `math.sin`, `math.cos`, and float `**` for exponents that are
not nonnegative integers).  They are irrational-valued in general, so the
embedding keeps them as parameters: every claim below holds for all choices,
because each claim only exercises the rational-exact paths. -/
structure MathModel where
  sqrtF : ℚ → ℚ
  log10F : ℚ → ℚ
  sinF : ℚ → ℚ
  cosF : ℚ → ℚ
  powF : ℚ → ℚ → ℚ

/-- Python's `a ** b`: exact whenever `b` is a nonnegative integer; any other
exponent is delegated to the model's float-power stand-in. -/
def qpow (M : MathModel) (a b : ℚ) : ℚ :=
  if b.den = 1 ∧ 0 ≤ b.num then a ^ b.num.toNat else M.powF a b

/-- `Evaluator.evaluate` / `evaluate_expression`: pure recursive tree walk
with the variable bound to `v`.  Branches mirror `evaluate_number`,
`evaluate_variable`, `evaluate_prefix_expression`,
`evaluate_infix_expression` (left operand evaluated before the right; a zero
divisor raises Division by zero before dividing) and `evaluate_function_call`
(each known function evaluates its argument then checks its domain; an
unknown name raises `UnknownFunctionError` without evaluating the argument).
The source's misspelling "vaild" in the two operator errors is preserved. -/
def evaluate (M : MathModel) (ast : AST) (v : ℚ) : Except EvalErr ℚ :=
  match ast with
  | .numberLiteral n => .ok n
  | .var _ => .ok v
  | .prefixExpression op e =>
    if op = "-" then do
      let a ← evaluate M e v
      return -a
    else if op = "+" then evaluate M e v
    else .error (.evaluatorError "Not a vaild prefix operator")
  | .infixExpression l op r =>
    if op = "+" then do
      let a ← evaluate M l v
      let b ← evaluate M r v
      return a + b
    else if op = "-" then do
      let a ← evaluate M l v
      let b ← evaluate M r v
      return a - b
    else if op = "*" then do
      let a ← evaluate M l v
      let b ← evaluate M r v
      return a * b
    else if op = "/" then do
      let dividend ← evaluate M l v
      let divisor ← evaluate M r v
      if divisor = 0 then .error (.evaluatorError "Division by zero")
      else return dividend / divisor
    else if op = "^" then do
      let a ← evaluate M l v
      let b ← evaluate M r v
      return qpow M a b
    else .error (.evaluatorError "Not a vaild infix operator")
  | .functionCall name p =>
    if name = "sqrt" then do
      let a ← evaluate M p v
      if a < 0 then .error (.evaluatorError "Square root of negative number")
      else return M.sqrtF a
    else if name = "log10" then do
      let a ← evaluate M p v
      if a ≤ 0 then .error (.evaluatorError "Logarithm of non-positive number")
      else return M.log10F a
    else if name = "sin" then do
      let a ← evaluate M p v
      return M.sinF a
    else if name = "cos" then do
      let a ← evaluate M p v
      return M.cosF a
    else .error (.unknownFunctionError name)

/-- `helpers.evaluator_function`: the single-variable evaluation function of a
tree. -/
def evaluator_function (M : MathModel) (ast : AST) : ℚ → Except EvalErr ℚ :=
  evaluate M ast

/-- A concrete model instance (every library function stubbed to 0), used
only to instantiate witnesses and counterexamples whose computations never
reach the library functions. -/
def M0 : MathModel := ⟨fun _ => 0, fun _ => 0, fun _ => 0, fun _ => 0, fun _ _ => 0⟩



/-- Symbolic expressions produced by `to_sympy_expr` (`ast.py`), modelled as
the free term structure over the backend constructors actually applied
(`Add`, `Mul`, `Pow`, `sqrt`, `log(·, 10)`, `sin`, `cos`, the real symbol
`x`, and numeric literals).  The backend's internal normalization of these
terms is irrelevant to the claims, which only concern which constructor or
error a conversion produces. -/
inductive SymExpr where
  | x
  | num (value : ℚ)
  | add (a b : SymExpr)
  | mul (a b : SymExpr)
  | pow (a b : SymExpr)
  | sqrt (a : SymExpr)
  | log10 (a : SymExpr)
  | sin (a : SymExpr)
  | cos (a : SymExpr)
deriving DecidableEq, Repr

/-- Errors escaping `to_sympy_expr`: a successfully constructed
`ParserError(message)` (message formatted by `ParserError.__init__`), or a
`TypeError` raised while *constructing* an exception with the wrong number of
arguments — `ParserError.__init__(self, message)` takes one message argument,
so `ParserError("Not a valid function", -1)` in the unknown-function branch
raises `TypeError` before any `ParserError` exists. -/
inductive SymErr where
  | parserError (msg : String)
  | typeError (msg : String)
deriving DecidableEq, Repr

/-- `ASTNode.to_sympy_expr` across the five node classes: numbers map to
themselves, a variable maps to the symbol `x`, prefix `-` maps to
`Mul(operand, -1)`, the binary operators map to `Add`/`Mul`/`Pow`
combinations, and function calls map to `sqrt`/`log(·, 10)`/`sin`/`cos`.
Unknown prefix and infix operators raise `ParserError`; an unknown function
name hits `raise ParserError("Not a valid function", -1)`, which raises
`TypeError` because `ParserError.__init__` accepts only a single message
argument. -/
def to_sympy_expr : AST → Except SymErr SymExpr
  | .numberLiteral n => .ok (.num n)
  | .var _ => .ok .x
  | .prefixExpression op e =>
    if op = "-" then do
      let a ← to_sympy_expr e
      return .mul a (.num (-1))
    else .error (.parserError (parserErrorMsg "Not a valid prefix operator"))
  | .infixExpression l op r =>
    if op = "+" then do
      let a ← to_sympy_expr l
      let b ← to_sympy_expr r
      return .add a b
    else if op = "-" then do
      let a ← to_sympy_expr l
      let b ← to_sympy_expr r
      return .add a (.mul b (.num (-1)))
    else if op = "*" then do
      let a ← to_sympy_expr l
      let b ← to_sympy_expr r
      return .mul a b
    else if op = "/" then do
      let a ← to_sympy_expr l
      let b ← to_sympy_expr r
      return .mul a (.pow b (.num (-1)))
    else if op = "^" then do
      let a ← to_sympy_expr l
      let b ← to_sympy_expr r
      return .pow a b
    else .error (.parserError (parserErrorMsg "Not a valid infix operator"))
  | .functionCall name p =>
    if name = "sqrt" then do
      let a ← to_sympy_expr p
      return .sqrt a
    else if name = "log10" then do
      let a ← to_sympy_expr p
      return .log10 a
    else if name = "sin" then do
      let a ← to_sympy_expr p
      return .sin a
    else if name = "cos" then do
      let a ← to_sympy_expr p
      return .cos a
    else
      .error (.typeError
        "ParserError.__init__() takes 2 positional arguments but 3 were given")


/-- Remove adjacent duplicates; on a list sorted by `≤` this yields the
strictly ascending list of distinct values, which is what `np.unique` (and
hence `np.union1d`) produces. -/
def dedupSorted : List ℚ → List ℚ
  | [] => []
  | [a] => [a]
  | a :: b :: rest => if a = b then dedupSorted (b :: rest) else a :: dedupSorted (b :: rest)

/-- `np.union1d`: the sorted list of distinct values occurring in either
input. -/
def sortedUnion (a b : List ℚ) : List ℚ :=
  dedupSorted (List.insertionSort (· ≤ ·) (a ++ b))

/-- `np.linspace(a, b, n)` under exact arithmetic: `n` evenly spaced samples
from `a` to `b` inclusive. -/
def linspace (a b : ℚ) (n : Nat) : List ℚ :=
  match n with
  | 0 => []
  | 1 => [a]
  | _ => (List.range n).map (fun i => a + i * (b - a) / ((n : ℚ) - 1))

/-- `helpers.safe_evaluate`: evaluate `func` left to right over the grid,
appending the value on success and the undefined marker (`np.nan`, modelled
as `none`) when the point raises `EvaluatorError` — the only exception class
the `try/except` absorbs.  Any other exception (in particular
`UnknownFunctionError`, which subclasses `Exception` directly) escapes the
whole call. -/
def safe_evaluate (func : ℚ → Except EvalErr ℚ) : List ℚ → Except EvalErr (List (Option ℚ))
  | [] => .ok []
  | x :: xs =>
    match func x with
    | .ok v =>
      match safe_evaluate func xs with
      | .error e => .error e
      | .ok ys => .ok (some v :: ys)
    | .error (.evaluatorError _) =>
      match safe_evaluate func xs with
      | .error e => .error e
      | .ok ys => .ok (none :: ys)
    | .error e => .error e

/-- The refinement scan of `adaptive_sampling`: `dy = np.abs(np.diff(y))`,
`high_curvature = np.where(dy > tolerance)`, and for each such index the ten
values `np.linspace(x[i], x[i+1], 10)` are appended to `new_x`.  A pair with
an undefined marker on either side has `dy = NaN`, and `NaN > tolerance` is
false, so such pairs are never refined. -/
def refineSegments (tolerance : ℚ) : List ℚ → List (Option ℚ) → List ℚ
  | x0 :: x1 :: xs, y0 :: y1 :: ys =>
    (match y0, y1 with
     | some a, some b => if |b - a| > tolerance then linspace x0 x1 10 else []
     | _, _ => []) ++ refineSegments tolerance (x1 :: xs) (y1 :: ys)
  | _, _ => []

/-- The initial grid of `helpers.adaptive_sampling`: a `num_points`-point
uniform grid spanning at least `[-100, 100]`, unioned with the
`must_evaluate_points` (to which `0` is appended first). -/
def initialGrid (x_min x_max : ℚ) (num_points : Nat) (must_evaluate_points : List ℚ) :
    List ℚ :=
  sortedUnion (linspace (min x_min (-100)) (max x_max 100) num_points)
    (must_evaluate_points ++ [0])

/-- `helpers.adaptive_sampling`: build the initial grid, evaluate it once via
`safe_evaluate`, insert a ten-point linspace across every consecutive pair
whose `|Δy|` exceeds `tolerance`, then sort the union and evaluate the full
refined grid once more (the Python defaults are `num_points = 1000`,
`must_evaluate_points = []`, `tolerance = 1e-3`).  Exceptions escaping either
`safe_evaluate` pass (anything that is not an `EvaluatorError`) propagate out
of the whole call. -/
def adaptive_sampling (func : ℚ → Except EvalErr ℚ) (x_min x_max : ℚ)
    (num_points : Nat) (must_evaluate_points : List ℚ) (tolerance : ℚ) :
    Except EvalErr (List ℚ × List (Option ℚ)) :=
  let x := initialGrid x_min x_max num_points must_evaluate_points
  match safe_evaluate func x with
  | .error e => .error e
  | .ok y =>
    let new_x := refineSegments tolerance x y
    let x' := List.insertionSort (· ≤ ·) (sortedUnion x new_x)
    match safe_evaluate func x' with
    | .error e => .error e
    | .ok y' => .ok (x', y')


/-- Minimum number of tokens any successful run of a given parser control
point consumes. -/
def modeGain : PMode → Nat
  | .expr _ => 1
  | .pfx _ => 0
  | .paren => 1
  | .fn _ => 1
  | .loop _ _ => 0

/-- Fuel weight of each parser control point: enough budget for the chain of
calls it can make before the next token is consumed. -/
def modeW : PMode → Nat
  | .expr _ => 3
  | .pfx _ => 5
  | .paren => 4
  | .fn _ => 4
  | .loop _ _ => 4

/-- The grid `adaptive_sampling` produces when no exception escapes
`safe_evaluate`: the initial grid refined once with per-pair linspaces, as a
named value for stating how the sampler behaves on failure-absorbing runs. -/
def absorbedGrid (func : ℚ → Except EvalErr ℚ) (x_min x_max : ℚ)
    (num_points : Nat) (mi : List ℚ) (tol : ℚ) : List ℚ :=
  let g := initialGrid x_min x_max num_points mi
  let y := g.map (fun q => (func q).toOption)
  List.insertionSort (· ≤ ·) (sortedUnion g (refineSegments tol g y))

theorem mem_dedupSorted : ∀ (l : List ℚ) (q : ℚ), q ∈ dedupSorted l ↔ q ∈ l := by
  intro l
  induction l with
  | nil => simp [dedupSorted]
  | cons a t ih =>
    intro q
    cases t with
    | nil => simp [dedupSorted]
    | cons b rest =>
      simp only [dedupSorted]
      split
      · rename_i hab
        rw [ih]
        subst hab
        simp [List.mem_cons]
      · simp [List.mem_cons, ih]

theorem sorted_lt_dedupSorted :
    ∀ (l : List ℚ), l.Sorted (· ≤ ·) → (dedupSorted l).Sorted (· < ·) := by
  intro l
  induction l with
  | nil => intro _; simp [dedupSorted]
  | cons a t ih =>
    intro hs
    cases t with
    | nil => simp [dedupSorted]
    | cons b rest =>
      simp only [dedupSorted]
      rw [List.sorted_cons] at hs
      split
      · exact ih hs.2
      · rename_i hab
        rw [List.sorted_cons]
        refine ⟨fun q hq => ?_, ih hs.2⟩
        rw [mem_dedupSorted] at hq
        have hab' : a < b := lt_of_le_of_ne (hs.1 b (by simp)) hab
        rcases List.mem_cons.mp hq with h | h
        · exact h ▸ hab'
        · have : b ≤ q := (List.sorted_cons.mp hs.2).1 q h
          exact lt_of_lt_of_le hab' this

theorem sorted_lt_sortedUnion (a b : List ℚ) : (sortedUnion a b).Sorted (· < ·) :=
  sorted_lt_dedupSorted _ (List.sorted_insertionSort _ _)

theorem mem_sortedUnion (a b : List ℚ) (q : ℚ) :
    q ∈ sortedUnion a b ↔ q ∈ a ∨ q ∈ b := by
  rw [sortedUnion, mem_dedupSorted, List.mem_insertionSort, List.mem_append]

theorem sorted_lt_of_sorted_le_nodup :
    ∀ {l : List ℚ}, l.Sorted (· ≤ ·) → l.Nodup → l.Sorted (· < ·) := by
  intro l
  induction l with
  | nil => simp
  | cons a t ih =>
    intro hs hn
    rw [List.sorted_cons] at hs ⊢
    rw [List.nodup_cons] at hn
    refine ⟨fun b hb => lt_of_le_of_ne (hs.1 b hb) ?_, ih hs.2 hn.2⟩
    rintro rfl
    exact hn.1 hb

theorem safe_evaluate_length (func : ℚ → Except EvalErr ℚ) :
    ∀ (xs : List ℚ) (ys : List (Option ℚ)),
      safe_evaluate func xs = .ok ys → ys.length = xs.length := by
  intro xs
  induction xs with
  | nil => intro ys h; simp [safe_evaluate] at h; simp [← h]
  | cons x rest ih =>
    intro ys h
    simp only [safe_evaluate] at h
    split at h
    · split at h
      · exact absurd h (by simp)
      · rename_i ys' hrest
        simp at h
        subst h
        simp [ih ys' hrest]
    · split at h
      · exact absurd h (by simp)
      · rename_i ys' hrest
        simp at h
        subst h
        simp [ih ys' hrest]
    · exact absurd h (by simp)

theorem safe_evaluate_of_no_unknown (func : ℚ → Except EvalErr ℚ) :
    ∀ (xs : List ℚ),
      (∀ q ∈ xs, ∀ n, func q ≠ .error (.unknownFunctionError n)) →
      safe_evaluate func xs = .ok (xs.map fun t => (func t).toOption) := by
  intro xs
  induction xs with
  | nil => intro _; simp [safe_evaluate]
  | cons x rest ih =>
    intro hf
    have hrest := ih (fun q hq => hf q (List.mem_cons_of_mem x hq))
    simp only [safe_evaluate, List.map_cons]
    cases hx : func x with
    | ok v => rw [hrest]; simp [Except.toOption]
    | error e =>
      cases e with
      | evaluatorError m => rw [hrest]; simp [Except.toOption]
      | unknownFunctionError n => exact absurd hx (hf x (by simp) n)

theorem mem_linspace10 (a b : ℚ) (k : Nat) (hk : k ≤ 9) :
    a + k * (b - a) / 9 ∈ linspace a b 10 := by
  have hls : linspace a b 10 =
      (List.range 10).map (fun i => a + i * (b - a) / ((10 : ℚ) - 1)) := rfl
  have hk10 : k < 10 := by omega
  have heq : a + (k : ℚ) * (b - a) / 9 =
      (fun i : Nat => a + (i : ℚ) * (b - a) / ((10 : ℚ) - 1)) k := by norm_num
  rw [hls, heq]
  exact List.mem_map_of_mem (fun i : Nat => a + (i : ℚ) * (b - a) / ((10 : ℚ) - 1))
    (List.mem_range.mpr hk10)

theorem mem_refineSegments (tolerance : ℚ) :
    ∀ (i : Nat) (xs : List ℚ) (ys : List (Option ℚ)) (x0 x1 y0 y1 : ℚ),
      xs[i]? = some x0 → xs[i + 1]? = some x1 →
      ys[i]? = some (some y0) → ys[i + 1]? = some (some y1) →
      |y1 - y0| > tolerance →
      ∀ z ∈ linspace x0 x1 10, z ∈ refineSegments tolerance xs ys := by
  intro i
  induction i with
  | zero =>
    intro xs ys x0 x1 y0 y1 hx0 hx1 hy0 hy1 htol z hz
    match xs, ys with
    | x0' :: x1' :: xrest, y0' :: y1' :: yrest =>
      simp at hx0 hx1 hy0 hy1
      subst hx0; subst hx1; subst hy0; subst hy1
      simp only [refineSegments]
      rw [if_pos htol]
      exact List.mem_append_left _ hz
    | [], _ => simp at hx0
    | [_], _ => simp at hx1
    | _ :: _ :: _, [] => simp at hy0
    | _ :: _ :: _, [_] => simp at hy1
  | succ i ih =>
    intro xs ys x0 x1 y0 y1 hx0 hx1 hy0 hy1 htol z hz
    match xs, ys with
    | x0' :: x1' :: xrest, y0' :: y1' :: yrest =>
      simp only [List.getElem?_cons_succ] at hx0 hx1 hy0 hy1
      simp only [refineSegments]
      exact List.mem_append_right _
        (ih (x1' :: xrest) (y1' :: yrest) x0 x1 y0 y1 hx0 (by simpa using hx1)
          hy0 (by simpa using hy1) htol z hz)
    | [], _ => simp at hx0
    | [_], _ => simp at hx1
    | _ :: _ :: _, [] => simp at hy0
    | _ :: _ :: _, [_] => simp at hy1



theorem parseStep_progress (ts : List Tok) (recur : PMode → Nat → Except PErr (AST × Nat))
    (hrec : ∀ m c a c', recur m c = .ok (a, c') → c + modeGain m ≤ c') :
    ∀ (mode : PMode) (cur : Nat) (a : AST) (c' : Nat),
      parseStep ts recur mode cur = .ok (a, c') → cur + modeGain mode ≤ c' := by
  intro mode cur a c' h
  cases mode with
  | expr prec =>
    simp only [parseStep] at h
    split at h
    · simp at h
    · split at h
      · simp at h
      · rename_i left cur1 hp
        have h1 := hrec _ _ _ _ hp
        have h2 := hrec _ _ _ _ h
        simp only [modeGain] at h1 h2 ⊢
        omega
  | pfx tok =>
    simp only [parseStep] at h
    split at h
    · obtain ⟨-, h2⟩ := by simpa using h
      simp only [modeGain]
      omega
    · obtain ⟨-, h2⟩ := by simpa using h
      simp only [modeGain]
      omega
    · split at h
      · simp at h
      · rename_i operand cur1 hp
        obtain ⟨-, h2⟩ := by simpa using h
        have h1 := hrec _ _ _ _ hp
        simp only [modeGain] at h1 ⊢
        omega
    · have h1 := hrec _ _ _ _ h
      simp only [modeGain] at h1 ⊢
      omega
    · have h1 := hrec _ _ _ _ h
      simp only [modeGain] at h1 ⊢
      omega
    · have h1 := hrec _ _ _ _ h
      simp only [modeGain] at h1 ⊢
      omega
    · simp at h
  | paren =>
    simp only [parseStep] at h
    split at h
    · simp at h
    · rename_i node cur1 hp
      have h1 := hrec _ _ _ _ hp
      split at h
      · split at h
        · obtain ⟨-, h2⟩ := by simpa using h
          simp only [modeGain] at h1 ⊢
          omega
        · simp at h
      · obtain ⟨-, h2⟩ := by simpa using h
        simp only [modeGain] at h1 ⊢
        omega
  | fn name =>
    simp only [parseStep] at h
    split at h
    · simp at h
    · split at h
      · split at h
        · simp at h
        · rename_i arg cur1 hp
          obtain ⟨-, h2⟩ := by simpa using h
          have h1 := hrec _ _ _ _ hp
          simp only [modeGain] at h1 ⊢
          omega
      · simp at h
  | loop prec left =>
    simp only [parseStep] at h
    split at h
    · obtain ⟨-, h2⟩ := by simpa using h
      simp only [modeGain]
      omega
    · split at h
      · split at h <;>
          first
          | simp at h
          | (split at h
             · simp at h
             · rename_i right cur1 hp
               have h1 := hrec _ _ _ _ hp
               have h2 := hrec _ _ _ _ h
               simp only [modeGain] at h1 h2 ⊢
               omega)
      · obtain ⟨-, h2⟩ := by simpa using h
        simp only [modeGain]
        omega

theorem parseGo_progress (ts : List Tok) :
    ∀ (fuel : Nat) (mode : PMode) (cur : Nat) (a : AST) (c' : Nat),
      parseGo fuel ts mode cur = .ok (a, c') → cur + modeGain mode ≤ c' := by
  intro fuel
  induction fuel with
  | zero => intro mode cur a c' h; simp [parseGo] at h
  | succ fuel ih =>
    intro mode cur a c' h
    exact parseStep_progress ts (parseGo fuel ts) (fun m c => ih m c) mode cur a c' h

theorem parseStep_mono (ts : List Tok) (f g : PMode → Nat → Except PErr (AST × Nat))
    (hfg : ∀ m c r, f m c = r → r ≠ .error .fuelExhausted → g m c = r) :
    ∀ (mode : PMode) (cur : Nat) (r : Except PErr (AST × Nat)),
      parseStep ts f mode cur = r → r ≠ .error .fuelExhausted →
      parseStep ts g mode cur = r := by
  intro mode cur r h hne
  cases mode with
  | expr prec =>
    simp only [parseStep] at h ⊢
    cases hcur : ts[cur]? with
    | none => simp only [hcur] at h ⊢; exact h
    | some tok =>
      simp only [hcur] at h ⊢
      cases hp : f (.pfx tok) (cur + 1) with
      | error e =>
        simp only [hp] at h
        have he : e ≠ .fuelExhausted := by
          rintro rfl
          rw [← h] at hne
          exact hne rfl
        have hg := hfg _ _ _ hp (fun hh => he (by injection hh))
        simp only [hg]
        exact h
      | ok p =>
        obtain ⟨left, cur1⟩ := p
        simp only [hp] at h
        have hg := hfg _ _ _ hp (by simp)
        simp only [hg]
        exact hfg _ _ _ h hne
  | pfx tok =>
    cases tok with
    | number v => simpa only [parseStep] using h
    | var n => simpa only [parseStep] using h
    | minus =>
      simp only [parseStep] at h ⊢
      cases hp : f (.expr 0) cur with
      | error e =>
        simp only [hp] at h
        have he : e ≠ .fuelExhausted := by
          rintro rfl
          rw [← h] at hne
          exact hne rfl
        have hg := hfg _ _ _ hp (fun hh => he (by injection hh))
        simp only [hg]
        exact h
      | ok p =>
        obtain ⟨operand, cur1⟩ := p
        simp only [hp] at h
        have hg := hfg _ _ _ hp (by simp)
        simp only [hg]
        exact h
    | plus => simp only [parseStep] at h ⊢; exact hfg _ _ _ h hne
    | lparen => simp only [parseStep] at h ⊢; exact hfg _ _ _ h hne
    | function n => simp only [parseStep] at h ⊢; exact hfg _ _ _ h hne
    | asterisk => simpa only [parseStep] using h
    | slash => simpa only [parseStep] using h
    | exponent => simpa only [parseStep] using h
    | rparen => simpa only [parseStep] using h
    | dot => simpa only [parseStep] using h
  | paren =>
    simp only [parseStep] at h ⊢
    cases hp : f (.expr 0) cur with
    | error e =>
      simp only [hp] at h
      have he : e ≠ .fuelExhausted := by
        rintro rfl
        rw [← h] at hne
        exact hne rfl
      have hg := hfg _ _ _ hp (fun hh => he (by injection hh))
      simp only [hg]
      exact h
    | ok p =>
      obtain ⟨node, cur1⟩ := p
      simp only [hp] at h
      have hg := hfg _ _ _ hp (by simp)
      simp only [hg]
      exact h
  | fn name =>
    simp only [parseStep] at h ⊢
    cases hcur : ts[cur]? with
    | none => simp only [hcur] at h ⊢; exact h
    | some t =>
      simp only [hcur] at h ⊢
      by_cases hlp : t = .lparen
      · simp only [if_pos hlp] at h ⊢
        cases hp : f .paren (cur + 1) with
        | error e =>
          simp only [hp] at h
          have he : e ≠ .fuelExhausted := by
            rintro rfl
            rw [← h] at hne
            exact hne rfl
          have hg := hfg _ _ _ hp (fun hh => he (by injection hh))
          simp only [hg]
          exact h
        | ok p =>
          obtain ⟨arg, cur1⟩ := p
          simp only [hp] at h
          have hg := hfg _ _ _ hp (by simp)
          simp only [hg]
          exact h
      · simp only [if_neg hlp] at h ⊢
        exact h
  | loop prec left =>
    simp only [parseStep] at h ⊢
    cases hcur : ts[cur]? with
    | none => simp only [hcur] at h ⊢; exact h
    | some tok =>
      simp only [hcur] at h ⊢
      by_cases hpr : prec < precedence tok
      · simp only [if_pos hpr] at h ⊢
        split at h <;>
          first
          | exact h
          | (split at h
             · rename_i e heq
               have he : e ≠ PErr.fuelExhausted := by
                 rintro rfl
                 rw [← h] at hne
                 exact hne rfl
               have hg := hfg _ _ _ heq (fun hh => he (by injection hh))
               simp only [hg]
               exact h
             · rename_i right cur1 heq
               have hg := hfg _ _ _ heq (by simp)
               simp only [hg]
               exact hfg _ _ _ h hne)
      · simp only [if_neg hpr] at h ⊢
        exact h

theorem parseGo_mono_succ (ts : List Tok) :
    ∀ (fuel : Nat) (mode : PMode) (cur : Nat) (r : Except PErr (AST × Nat)),
      parseGo fuel ts mode cur = r → r ≠ .error .fuelExhausted →
      parseGo (fuel + 1) ts mode cur = r := by
  intro fuel
  induction fuel with
  | zero =>
    intro mode cur r h hne
    rw [← h] at hne
    exact absurd rfl hne
  | succ fuel ih =>
    intro mode cur r h hne
    exact parseStep_mono ts (parseGo fuel ts) (parseGo (fuel + 1) ts)
      (fun m c => ih m c) mode cur r h hne

theorem parseGo_mono_le (ts : List Tok) (fuel fuel' : Nat) (hle : fuel ≤ fuel') :
    ∀ (mode : PMode) (cur : Nat) (r : Except PErr (AST × Nat)),
      parseGo fuel ts mode cur = r → r ≠ .error .fuelExhausted →
      parseGo fuel' ts mode cur = r := by
  induction fuel' with
  | zero =>
    intro mode cur r h hne
    have : fuel = 0 := by omega
    subst this
    exact h
  | succ fuel' ih =>
    intro mode cur r h hne
    rcases Nat.lt_or_ge fuel (fuel' + 1) with hlt | hge
    · exact parseGo_mono_succ ts fuel' mode cur r (ih (by omega) mode cur r h hne) hne
    · have : fuel = fuel' + 1 := by omega
      subst this
      exact h


theorem parseStep_suff (ts : List Tok) (fuel : Nat)
    (f : PMode → Nat → Except PErr (AST × Nat))
    (hf : ∀ m c, 3 * (ts.length - c) + modeW m ≤ fuel → f m c ≠ .error .fuelExhausted)
    (hprog : ∀ m c a c', f m c = .ok (a, c') → c + modeGain m ≤ c') :
    ∀ (mode : PMode) (cur : Nat), 3 * (ts.length - cur) + modeW mode ≤ fuel + 1 →
      parseStep ts f mode cur ≠ .error .fuelExhausted := by
  intro mode cur hfu
  cases mode with
  | expr prec =>
    simp only [parseStep]
    split
    · simp
    · rename_i tok hcur
      obtain ⟨hcl, -⟩ := List.getElem?_eq_some_iff.mp hcur
      have hinv1 : 3 * (ts.length - (cur + 1)) + modeW (.pfx tok) ≤ fuel := by
        simp only [modeW] at hfu ⊢
        omega
      split
      · rename_i e hp
        simpa only [hp] using hf _ _ hinv1
      · rename_i left cur1 hp
        have hc1 := hprog _ _ _ _ hp
        apply hf
        simp only [modeGain] at hc1
        simp only [modeW] at hfu ⊢
        omega
  | pfx tok =>
    cases tok with
    | number v => simp [parseStep]
    | var n => simp [parseStep]
    | minus =>
      simp only [parseStep]
      have hinv1 : 3 * (ts.length - cur) + modeW (.expr 0) ≤ fuel := by
        simp only [modeW] at hfu ⊢
        omega
      split
      · rename_i e hp
        simpa only [hp] using hf _ _ hinv1
      · simp
    | plus =>
      simp only [parseStep]
      apply hf
      simp only [modeW] at hfu ⊢
      omega
    | lparen =>
      simp only [parseStep]
      apply hf
      simp only [modeW] at hfu ⊢
      omega
    | function n =>
      simp only [parseStep]
      apply hf
      simp only [modeW] at hfu ⊢
      omega
    | asterisk => simp [parseStep]
    | slash => simp [parseStep]
    | exponent => simp [parseStep]
    | rparen => simp [parseStep]
    | dot => simp [parseStep]
  | paren =>
    simp only [parseStep]
    have hinv1 : 3 * (ts.length - cur) + modeW (.expr 0) ≤ fuel := by
      simp only [modeW] at hfu ⊢
      omega
    split
    · rename_i e hp
      simpa only [hp] using hf _ _ hinv1
    · rename_i node cur1 hp
      split
      · split
        · simp
        · simp
      · simp
  | fn name =>
    simp only [parseStep]
    split
    · simp
    · rename_i t hcur
      obtain ⟨hcl, -⟩ := List.getElem?_eq_some_iff.mp hcur
      split
      · have hinv1 : 3 * (ts.length - (cur + 1)) + modeW .paren ≤ fuel := by
          simp only [modeW] at hfu ⊢
          omega
        split
        · rename_i e hp
          simpa only [hp] using hf _ _ hinv1
        · simp
      · simp
  | loop prec left =>
    simp only [parseStep]
    split
    · simp
    · rename_i tok hcur
      obtain ⟨hcl, -⟩ := List.getElem?_eq_some_iff.mp hcur
      split
      · rename_i hpr
        split <;>
          first
          | (split
             · rename_i e hp
               intro hcon
               injection hcon with he
               subst he
               exact hf _ _ (by simp only [modeW] at hfu ⊢; omega) hp
             · rename_i right cur1 hp
               intro hcon
               have hc1 := hprog _ _ _ _ hp
               simp only [modeGain] at hc1
               exact hf _ _ (by simp only [modeW] at hfu ⊢; omega) hcon)
          | simp
      · simp

theorem parseGo_suff (ts : List Tok) :
    ∀ (fuel : Nat) (mode : PMode) (cur : Nat),
      3 * (ts.length - cur) + modeW mode ≤ fuel →
      parseGo fuel ts mode cur ≠ .error .fuelExhausted := by
  intro fuel
  induction fuel with
  | zero =>
    intro mode cur h
    have hw : 3 ≤ modeW mode := by cases mode <;> simp [modeW]
    omega
  | succ fuel ih =>
    intro mode cur h
    exact parseStep_suff ts fuel (parseGo fuel ts) (fun m c => ih m c)
      (fun m c a c' hh => parseGo_progress ts fuel m c a c' hh) mode cur h

theorem concat_lookup (ts : List Tok) (i : Nat) (tok : Tok)
    (h : (ts ++ [Tok.rparen])[i]? = some tok) :
    (i < ts.length ∧ ts[i]? = some tok) ∨ (i = ts.length ∧ tok = .rparen) := by
  rcases Nat.lt_trichotomy i ts.length with hlt | heq | hgt
  · exact Or.inl ⟨hlt, by rwa [List.getElem?_append_left hlt] at h⟩
  · refine Or.inr ⟨heq, ?_⟩
    rw [heq, List.getElem?_concat_length] at h
    exact (Option.some.inj h).symm
  · rw [List.getElem?_eq_none (by simp; omega)] at h
    exact absurd h (by simp)

theorem concat_lookup_none (ts : List Tok) (i : Nat)
    (h : (ts ++ [Tok.rparen])[i]? = none) : ts[i]? = none := by
  have : ts.length + 1 ≤ i := by simpa using List.getElem?_eq_none_iff.mp h
  exact List.getElem?_eq_none (by omega)

theorem parseStep_sim (ts : List Tok) (f g : PMode → Nat → Except PErr (AST × Nat))
    (hfg : ∀ m c v, f m c = .ok v → g m c = .ok v)
    (hnr : ∀ c v, f (.pfx .rparen) c ≠ .ok v) :
    ∀ (mode : PMode) (cur : Nat) (v : AST × Nat),
      parseStep (ts ++ [Tok.rparen]) f mode cur = .ok v →
      parseStep ts g mode cur = .ok v := by
  intro mode cur v h
  cases mode with
  | expr prec =>
    simp only [parseStep] at h ⊢
    split at h
    · simp at h
    · rename_i tok hcur
      split at h
      · simp at h
      · rename_i left cur1 hp
        rcases concat_lookup ts cur tok hcur with ⟨hlt, hts⟩ | ⟨heq, htok⟩
        · simp only [hts]
          have hg1 := hfg _ _ _ hp
          simp only [hg1]
          exact hfg _ _ _ h
        · rw [htok] at hp
          exact absurd hp (hnr _ _)
  | pfx tok =>
    cases tok with
    | number n => simpa only [parseStep] using h
    | var n => simpa only [parseStep] using h
    | minus =>
      simp only [parseStep] at h ⊢
      split at h
      · simp at h
      · rename_i operand cur1 hp
        have hg1 := hfg _ _ _ hp
        simp only [hg1]
        exact h
    | plus => simp only [parseStep] at h ⊢; exact hfg _ _ _ h
    | lparen => simp only [parseStep] at h ⊢; exact hfg _ _ _ h
    | function n => simp only [parseStep] at h ⊢; exact hfg _ _ _ h
    | asterisk => simp only [parseStep] at h; simp at h
    | slash => simp only [parseStep] at h; simp at h
    | exponent => simp only [parseStep] at h; simp at h
    | rparen => simp only [parseStep] at h; simp at h
    | dot => simp only [parseStep] at h; simp at h
  | paren =>
    simp only [parseStep] at h ⊢
    split at h
    · simp at h
    · rename_i node cur1 hp
      have hg1 := hfg _ _ _ hp
      simp only [hg1]
      split at h
      · rename_i t hl
        split at h
        · rename_i htr
          rcases concat_lookup ts cur1 t hl with ⟨hlt, hts⟩ | ⟨heq, htok⟩
          · simp only [hts]
            rw [if_pos htr]
            exact h
          · have : ts[cur1]? = none := List.getElem?_eq_none (by omega)
            simp only [this]
            exact h
        · simp at h
      · rename_i hl
        have := concat_lookup_none ts cur1 hl
        simp only [this]
        exact h
  | fn name =>
    simp only [parseStep] at h ⊢
    split at h
    · simp at h
    · rename_i t hcur
      split at h
      · rename_i htl
        split at h
        · simp at h
        · rename_i arg cur1 hp
          rcases concat_lookup ts cur t hcur with ⟨hlt, hts⟩ | ⟨heq, htok⟩
          · simp only [hts]
            rw [if_pos htl]
            have hg1 := hfg _ _ _ hp
            simp only [hg1]
            exact h
          · simp [htl] at htok
      · simp at h
  | loop prec left =>
    simp only [parseStep] at h ⊢
    split at h
    · rename_i hl
      have := concat_lookup_none ts cur hl
      simp only [this]
      exact h
    · rename_i tok hcur
      split at h
      · rename_i hpr
        rcases concat_lookup ts cur tok hcur with ⟨hlt, hts⟩ | ⟨heq, htok⟩
        · simp only [hts]
          rw [if_pos hpr]
          split at h <;>
            first
            | simp at h
            | (split at h
               · simp at h
               · rename_i right cur1 hp
                 have hg1 := hfg _ _ _ hp
                 simp only [hg1]
                 exact hfg _ _ _ h)
        · rw [htok] at hpr
          simp [precedence] at hpr
      · rename_i hpr
        rcases concat_lookup ts cur tok hcur with ⟨hlt, hts⟩ | ⟨heq, htok⟩
        · simp only [hts]
          rw [if_neg hpr]
          exact h
        · have : ts[cur]? = none := List.getElem?_eq_none (by omega)
          simp only [this]
          exact h

theorem parseGo_pfx_rparen (ts' : List Tok) :
    ∀ (fuel : Nat) (c : Nat) (v : AST × Nat),
      parseGo fuel ts' (.pfx .rparen) c ≠ .ok v := by
  intro fuel c v
  cases fuel with
  | zero => simp [parseGo]
  | succ fuel => simp [parseGo, parseStep]

theorem parseGo_sim (ts : List Tok) :
    ∀ (fuel : Nat) (mode : PMode) (cur : Nat) (v : AST × Nat),
      parseGo fuel (ts ++ [Tok.rparen]) mode cur = .ok v →
      parseGo fuel ts mode cur = .ok v := by
  intro fuel
  induction fuel with
  | zero => intro mode cur v h; simp [parseGo] at h
  | succ fuel ih =>
    intro mode cur v h
    exact parseStep_sim ts (parseGo fuel (ts ++ [Tok.rparen])) (parseGo fuel ts)
      (fun m c => ih m c) (parseGo_pfx_rparen (ts ++ [Tok.rparen]) fuel) mode cur v h

theorem parseTokens_drop_rparen (ts : List Tok) (t : AST)
    (h : parseTokens (ts ++ [Tok.rparen]) = .ok t) :
    parseTokens ts = .ok t := by
  unfold parseTokens at h ⊢
  simp only [parseExpression] at h ⊢
  cases hbig : parseGo (3 * (ts ++ [Tok.rparen]).length + 3) (ts ++ [Tok.rparen])
      (.expr 0) 0 with
  | error e => rw [hbig] at h; simp at h
  | ok p =>
    obtain ⟨tree, cur⟩ := p
    simp only [hbig] at h
    by_cases hc : cur < (ts ++ [Tok.rparen]).length
    · rw [if_pos hc] at h; simp at h
    · rw [if_neg hc] at h
      simp only [List.length_append, List.length_singleton] at hc
      have htree : tree = t := by simpa using h
      subst htree
      have hsim := parseGo_sim ts _ (.expr 0) 0 (tree, cur) hbig
      have hne := parseGo_suff ts (3 * ts.length + 3) (.expr 0) 0
        (by simp only [modeW]; omega)
      cases hsmall : parseGo (3 * ts.length + 3) ts (.expr 0) 0 with
      | error e =>
        have hlift := parseGo_mono_le ts (3 * ts.length + 3)
          (3 * (ts ++ [Tok.rparen]).length + 3) (by simp) (.expr 0) 0
          (.error e) hsmall (by rw [hsmall] at hne; exact hne)
        rw [hlift] at hsim
        exact absurd hsim (by simp)
      | ok q =>
        have hlift := parseGo_mono_le ts (3 * ts.length + 3)
          (3 * (ts ++ [Tok.rparen]).length + 3) (by simp) (.expr 0) 0
          (.ok q) hsmall (by simp)
        rw [hlift] at hsim
        have hq : q = (tree, cur) := by simpa using hsim
        subst hq
        have hnc : ¬ cur < ts.length := by omega
        simp [hnc]

theorem qpow_cast_nat (M : MathModel) (a : ℚ) (n : Nat) :
    qpow M a ((n : ℚ)) = a ^ n := by
  rw [qpow, if_pos]
  · simp
  · simp


/-- C3: prefix minus parses its operand at base precedence: the minus prefix
handler wraps the parse of everything that follows at precedence 0 in a
`PrefixExpression("-", ·)` node; in particular `parse("-3+4")` is
`-(3+4)` and evaluates to `-7` for every model and every binding. -/
theorem C3_prefix_minus_base_precedence :
    (∀ (fuel : Nat) (ts : List Tok) (cur : Nat) (operand : AST) (cur' : Nat),
      parseExpression fuel ts 0 cur = .ok (operand, cur') →
      parseGo (fuel + 1) ts (.pfx .minus) cur = .ok (.prefixExpression "-" operand, cur')) ∧
    parse_expression "-3+4" =
      .ok (.prefixExpression "-"
        (.infixExpression (.numberLiteral 3) "+" (.numberLiteral 4))) ∧
    (∀ (M : MathModel) (v : ℚ),
      evaluate M (.prefixExpression "-"
        (.infixExpression (.numberLiteral 3) "+" (.numberLiteral 4))) v = .ok (-7)) := by
  refine ⟨?_, by decide, ?_⟩
  · intro fuel ts cur operand cur' h
    simp only [parseExpression] at h
    simp only [parseGo, parseStep, h]
  · intro M v
    simp [evaluate, Except.bind, Bind.bind, Pure.pure, Except.pure]
    norm_num

/-- C3 witness: the general conjunct instantiated on the tokens of "-3",
where the minus prefix handler wraps the literal 3 parsed at precedence 0. -/
theorem C3_prefix_minus_witness :
    parseGo 10 [Tok.minus, Tok.number 3] (.pfx .minus) 1 =
      .ok (.prefixExpression "-" (.numberLiteral 3), 2) :=
  C3_prefix_minus_base_precedence.1 9 [Tok.minus, Tok.number 3] 1
    (.numberLiteral 3) 2 (by decide)

/-- C4 counterexample: the spec grammar's claim that prefix '-' binds tighter
than '+' (so "-3+4" would mean (-3)+4 = 1) is false on the code: the parser
yields -(3+4), which evaluates to -7, not 1. -/
theorem C4_counterexample_minus_not_tight :
    parse_expression "-3+4" =
      .ok (.prefixExpression "-"
        (.infixExpression (.numberLiteral 3) "+" (.numberLiteral 4))) ∧
    evaluate M0 (.prefixExpression "-"
      (.infixExpression (.numberLiteral 3) "+" (.numberLiteral 4))) 0 = .ok (-7) ∧
    ((-7 : ℚ) = 1 → False) := by
  refine ⟨by decide, by decide, by norm_num⟩

/-- C4 amended: prefix '-' takes the whole following expression parsed at
base precedence as its operand, binding looser than every binary operator:
`parse("-3+4")` represents -(3+4), and evaluating it yields -7 for every
model and every binding. -/
theorem C4_amended_minus_wraps_rest :
    ∀ (M : MathModel) (v : ℚ),
      (parse_expression "-3+4").map (fun t => evaluate M t v) = .ok (.ok (-7)) := by
  intro M v
  have hp : parse_expression "-3+4" =
      .ok (.prefixExpression "-"
        (.infixExpression (.numberLiteral 3) "+" (.numberLiteral 4))) := by decide
  rw [hp]
  simp [Except.map, evaluate, Except.bind, Bind.bind, Pure.pure, Except.pure]
  norm_num

/-- C6: exponentiation is right-associative: the infix loop parses the right
operand of '^' at exponent precedence minus one, so `parse("2^3^2")` is
structurally 2^(3^2) and evaluates to 512 (never 64) for every model and
binding. -/
theorem C6_exponent_right_assoc :
    (∀ (fuel : Nat) (ts : List Tok) (prec : Nat) (left : AST) (cur : Nat)
      (right : AST) (cur' : Nat),
      ts[cur]? = some Tok.exponent → prec < precedence Tok.exponent →
      parseExpression fuel ts (precedence Tok.exponent - 1) (cur + 1) = .ok (right, cur') →
      parseGo (fuel + 1) ts (.loop prec left) cur =
        parseGo fuel ts (.loop prec (.infixExpression left "^" right)) cur') ∧
    parse_expression "2^3^2" =
      .ok (.infixExpression (.numberLiteral 2) "^"
        (.infixExpression (.numberLiteral 3) "^" (.numberLiteral 2))) ∧
    (∀ (M : MathModel) (v : ℚ),
      evaluate M (.infixExpression (.numberLiteral 2) "^"
        (.infixExpression (.numberLiteral 3) "^" (.numberLiteral 2))) v = .ok 512 ∧
      (512 : ℚ) ≠ 64) := by
  refine ⟨?_, by decide, ?_⟩
  · intro fuel ts prec left cur right cur' hcur hpr h
    simp only [parseExpression] at h
    simp only [parseGo, parseStep, hcur, if_pos hpr, h]
  · intro M v
    refine ⟨?_, by norm_num⟩
    have e32 : qpow M 3 2 = 9 := by
      have := qpow_cast_nat M 3 2
      norm_num at this
      exact this
    have e29 : qpow M 2 9 = 512 := by
      have := qpow_cast_nat M 2 9
      norm_num at this
      exact this
    simp [evaluate, e32, e29, Except.bind, Bind.bind, Pure.pure, Except.pure]

/-- C6 witness: the general conjunct instantiated on the tokens of "2^3^2"
at the outer '^': the right operand 3^2 is parsed at precedence 2. -/
theorem C6_exponent_witness :
    parseGo 12 [Tok.number 2, Tok.exponent, Tok.number 3, Tok.exponent, Tok.number 2]
      (.loop 0 (.numberLiteral 2)) 1 =
    parseGo 11 [Tok.number 2, Tok.exponent, Tok.number 3, Tok.exponent, Tok.number 2]
      (.loop 0 (.infixExpression (.numberLiteral 2) "^"
        (.infixExpression (.numberLiteral 3) "^" (.numberLiteral 2)))) 5 :=
  C6_exponent_right_assoc.1 11 _ 0 (.numberLiteral 2) 1
    (.infixExpression (.numberLiteral 3) "^" (.numberLiteral 2)) 5
    (by decide) (by decide) (by decide)

/-- C7: domain errors: for every model and binding, an infix '/' whose
divisor evaluates to 0 fails with "Division by zero", a sqrt whose argument
evaluates negative fails with "Square root of negative number", a log10
whose argument evaluates non-positive fails with "Logarithm of non-positive
number"; in particular the pipelines for "5/0", "sqrt(-1)" and "log10(0)"
fail with exactly those errors. -/
theorem C7_domain_errors :
    ∀ (M : MathModel) (v : ℚ),
      (∀ (l r : AST) (a : ℚ), evaluate M l v = .ok a → evaluate M r v = .ok 0 →
        evaluate M (.infixExpression l "/" r) v =
          .error (.evaluatorError "Division by zero")) ∧
      (∀ (p : AST) (a : ℚ), evaluate M p v = .ok a → a < 0 →
        evaluate M (.functionCall "sqrt" p) v =
          .error (.evaluatorError "Square root of negative number")) ∧
      (∀ (p : AST) (a : ℚ), evaluate M p v = .ok a → a ≤ 0 →
        evaluate M (.functionCall "log10" p) v =
          .error (.evaluatorError "Logarithm of non-positive number")) ∧
      (parse_expression "5/0").map (fun t => evaluate M t v) =
        .ok (.error (.evaluatorError "Division by zero")) ∧
      (parse_expression "sqrt(-1)").map (fun t => evaluate M t v) =
        .ok (.error (.evaluatorError "Square root of negative number")) ∧
      (parse_expression "log10(0)").map (fun t => evaluate M t v) =
        .ok (.error (.evaluatorError "Logarithm of non-positive number")) := by
  intro M v
  refine ⟨?_, ?_, ?_, ?_, ?_, ?_⟩
  · intro l r a hl hr
    simp [evaluate, hl, hr, Except.bind, Bind.bind, Pure.pure, Except.pure]
  · intro p a hp ha
    simp [evaluate, hp, Except.bind, Bind.bind, Pure.pure, Except.pure, ha]
  · intro p a hp ha
    simp [evaluate, hp, Except.bind, Bind.bind, Pure.pure, Except.pure, ha]
  · have h : parse_expression "5/0" =
        .ok (.infixExpression (.numberLiteral 5) "/" (.numberLiteral 0)) := by decide
    rw [h]
    simp [Except.map, evaluate, Except.bind, Bind.bind, Pure.pure, Except.pure]
  · have h : parse_expression "sqrt(-1)" =
        .ok (.functionCall "sqrt" (.prefixExpression "-" (.numberLiteral 1))) := by decide
    rw [h]
    simp [Except.map, evaluate, Except.bind, Bind.bind, Pure.pure, Except.pure]
  · have h : parse_expression "log10(0)" =
        .ok (.functionCall "log10" (.numberLiteral 0)) := by decide
    rw [h]
    simp [Except.map, evaluate, Except.bind, Bind.bind, Pure.pure, Except.pure]

/-- C7 witness: the three domain-error rules instantiated at the concrete
model `M0`, binding 0, and the literal subtrees of "5/0", "sqrt(0-1)",
"log10(0)". -/
theorem C7_domain_errors_witness :
    evaluate M0 (.infixExpression (.numberLiteral 5) "/" (.numberLiteral 0)) 0 =
      .error (.evaluatorError "Division by zero") ∧
    evaluate M0 (.functionCall "sqrt" (.numberLiteral (-1))) 0 =
      .error (.evaluatorError "Square root of negative number") ∧
    evaluate M0 (.functionCall "log10" (.numberLiteral 0)) 0 =
      .error (.evaluatorError "Logarithm of non-positive number") := by
  obtain ⟨h1, h2, h3, -, -, -⟩ := C7_domain_errors M0 0
  exact ⟨h1 (.numberLiteral 5) (.numberLiteral 0) 5 (by decide) (by decide),
    h2 (.numberLiteral (-1)) (-1) (by decide) (by norm_num),
    h3 (.numberLiteral 0) 0 (by decide) (by norm_num)⟩

/-- C10: when, after the inner expression of a parenthesized group, the next
token exists but is not a right parenthesis, `parseParen` raises ParserError
"Expected right parenthesis"; in particular "(3 4)" and "(3." fail with
exactly that message. -/
theorem C10_expected_right_paren :
    (∀ (fuel : Nat) (ts : List Tok) (cur : Nat) (node : AST) (cur' : Nat) (t : Tok),
      parseExpression fuel ts 0 cur = .ok (node, cur') →
      ts[cur']? = some t → t ≠ .rparen →
      parseParen (fuel + 1) ts cur =
        .error (.err (parserErrorMsg "Expected right parenthesis"))) ∧
    parse_expression "(3 4)" = .error "ParserError: Expected right parenthesis" ∧
    parse_expression "(3." = .error "ParserError: Expected right parenthesis" := by
  refine ⟨?_, by decide, by decide⟩
  intro fuel ts cur node cur' t h ht htr
  simp only [parseExpression] at h
  simp only [parseParen, parseGo, parseStep, h, ht, if_neg htr]

/-- C10 witness: the general rule instantiated on the tokens of "(3 4)": the
inner expression stops at the literal 3, the next token is the number 4. -/
theorem C10_expected_right_paren_witness :
    parseParen 12 [Tok.lparen, Tok.number 3, Tok.number 4, Tok.rparen] 1 =
      .error (.err (parserErrorMsg "Expected right parenthesis")) :=
  C10_expected_right_paren.1 11 [Tok.lparen, Tok.number 3, Tok.number 4, Tok.rparen]
    1 (.numberLiteral 3) 2 (Tok.number 4) (by decide) (by decide) (by decide)

/-- C8: a token sequence whose only defect is a missing closing right
parenthesis at end-of-input parses silently to the same tree as the fully
parenthesized sequence: whenever appending one rparen yields a valid parse,
the unappended sequence parses to the identical tree; in particular
"(3+4" and "2*(x+1" parse exactly like "(3+4)" and "2*(x+1)". -/
theorem C8_missing_rparen_tolerated :
    (∀ (ts : List Tok) (t : AST),
      parseTokens (ts ++ [Tok.rparen]) = .ok t → parseTokens ts = .ok t) ∧
    parse_expression "(3+4" = parse_expression "(3+4)" ∧
    parse_expression "2*(x+1" = parse_expression "2*(x+1)" ∧
    parse_expression "(3+4" =
      .ok (.infixExpression (.numberLiteral 3) "+" (.numberLiteral 4)) := by
  exact ⟨parseTokens_drop_rparen, by decide, by decide, by decide⟩

/-- C8 witness: the general conjunct applied to the token sequence of "(3+4",
whose rparen-completion parses to 3+4. -/
theorem C8_missing_rparen_witness :
    parseTokens [Tok.lparen, Tok.number 3, Tok.plus, Tok.number 4] =
      .ok (.infixExpression (.numberLiteral 3) "+" (.numberLiteral 4)) :=
  C8_missing_rparen_tolerated.1 [Tok.lparen, Tok.number 3, Tok.plus, Tok.number 4]
    (.infixExpression (.numberLiteral 3) "+" (.numberLiteral 4)) (by decide)

/-- C2 (code bug): for a function name outside sqrt/log10/sin/cos, the tree
of "foo(x)" makes the numeric evaluator fail with
`UnknownFunctionError("foo")`, but the symbolic conversion does not fail
with the intended `ParserError("Not a valid function")`: the raise site
passes an extra positional argument (-1) to `ParserError.__init__`, so
constructing the exception itself raises `TypeError`. -/
theorem C2_unknown_function_symbolic_type_error :
    parse_expression "foo(x)" = .ok (.functionCall "foo" (.var "x")) ∧
    to_sympy_expr (.functionCall "foo" (.var "x")) =
      .error (.typeError
        "ParserError.__init__() takes 2 positional arguments but 3 were given") ∧
    to_sympy_expr (.functionCall "foo" (.var "x")) ≠
      .error (.parserError (parserErrorMsg "Not a valid function")) ∧
    (∀ (M : MathModel) (v : ℚ),
      evaluate M (.functionCall "foo" (.var "x")) v =
        .error (.unknownFunctionError "foo")) := by
  refine ⟨by decide, by decide, by decide, ?_⟩
  intro M v
  simp [evaluate]

/-- C5: for every sampler call that returns, the returned x sequence is
strictly ascending, the y sequence has exactly the same length, and every
element of must_evaluate_points (and 0) occurs in x. -/
theorem C5_sampler_monotone :
    ∀ (func : ℚ → Except EvalErr ℚ) (x_min x_max : ℚ) (num_points : Nat)
      (mi : List ℚ) (tol : ℚ) (xs : List ℚ) (ys : List (Option ℚ)),
      adaptive_sampling func x_min x_max num_points mi tol = .ok (xs, ys) →
      xs.Sorted (· < ·) ∧ ys.length = xs.length ∧
      (∀ m ∈ mi, m ∈ xs) ∧ (0 : ℚ) ∈ xs := by
  intro func x_min x_max num_points mi tol xs ys h
  simp only [adaptive_sampling] at h
  split at h
  · exact absurd h (by simp)
  · rename_i y hy
    split at h
    · exact absurd h (by simp)
    · rename_i y' hy'
      have hxs : xs = List.insertionSort (· ≤ ·)
          (sortedUnion (initialGrid x_min x_max num_points mi)
            (refineSegments tol (initialGrid x_min x_max num_points mi) y)) := by
        have := h
        simp at this
        exact this.1.symm
      have hys : ys = y' := by
        have := h
        simp at this
        exact this.2.symm
      subst hxs
      subst hys
      refine ⟨?_, ?_, ?_, ?_⟩
      · apply sorted_lt_of_sorted_le_nodup (List.sorted_insertionSort _ _)
        exact (List.perm_insertionSort _ _).nodup_iff.mpr
          ((sorted_lt_sortedUnion _ _).nodup)
      · exact safe_evaluate_length func _ _ hy'
      · intro m hm
        rw [List.mem_insertionSort, mem_sortedUnion]
        left
        rw [initialGrid, mem_sortedUnion]
        right
        exact List.mem_append_left _ hm
      · rw [List.mem_insertionSort, mem_sortedUnion]
        left
        rw [initialGrid, mem_sortedUnion]
        right
        exact List.mem_append_right _ (by simp)

/-- C5 witness: a three-point run on the constant tree "5": the returned x
grid [-100, 0, 100] is strictly ascending, the y list has length 3, the
(empty) must-include list and 0 are present. -/
theorem C5_sampler_monotone_witness :
    List.Sorted (· < ·) [(-100 : ℚ), 0, 100] ∧
    ([some (5 : ℚ), some 5, some 5] : List (Option ℚ)).length =
      ([(-100 : ℚ), 0, 100] : List ℚ).length ∧
    (∀ m ∈ ([] : List ℚ), m ∈ ([(-100 : ℚ), 0, 100] : List ℚ)) ∧
    (0 : ℚ) ∈ ([(-100 : ℚ), 0, 100] : List ℚ) :=
  C5_sampler_monotone (evaluate M0 (.numberLiteral 5)) (-1) 1 2 [] (1/1000)
    [-100, 0, 100] [some 5, some 5, some 5] (by decide)


/-- C1 amended: the sampler absorbs exactly the `EvaluatorError` failures:
whenever the evaluation function never raises `UnknownFunctionError`, the
call returns a complete (x, y) pair in which each failing point carries the
undefined marker; `UnknownFunctionError` itself is not absorbed (see the
counterexample, where sampling 'foo(x)' propagates the exception). -/
theorem C1_sampler_absorbs_evaluator_errors :
    ∀ (func : ℚ → Except EvalErr ℚ) (x_min x_max : ℚ) (num_points : Nat)
      (mi : List ℚ) (tol : ℚ),
      (∀ (q : ℚ) (n : String), func q ≠ .error (.unknownFunctionError n)) →
      adaptive_sampling func x_min x_max num_points mi tol =
        .ok (absorbedGrid func x_min x_max num_points mi tol,
          (absorbedGrid func x_min x_max num_points mi tol).map
            (fun q => (func q).toOption)) := by
  intro func x_min x_max num_points mi tol h
  have h1 := safe_evaluate_of_no_unknown func (initialGrid x_min x_max num_points mi)
    (fun q _ n => h q n)
  have h2 := safe_evaluate_of_no_unknown func
    (absorbedGrid func x_min x_max num_points mi tol) (fun q _ n => h q n)
  simp only [adaptive_sampling, h1, absorbedGrid] at h2 ⊢
  simp only [h2]

/-- C1 witness: a run on the constant tree "5", which never raises at all. -/
theorem C1_sampler_absorbs_witness :
    adaptive_sampling (evaluate M0 (.numberLiteral 5)) (-1) 1 2 [] (1/1000) =
      .ok (absorbedGrid (evaluate M0 (.numberLiteral 5)) (-1) 1 2 [] (1/1000),
        (absorbedGrid (evaluate M0 (.numberLiteral 5)) (-1) 1 2 [] (1/1000)).map
          (fun q => (evaluate M0 (.numberLiteral 5) q).toOption)) :=
  C1_sampler_absorbs_evaluator_errors (evaluate M0 (.numberLiteral 5)) (-1) 1 2 []
    (1/1000) (fun q n => by simp [evaluate])

/-- C1 counterexample: sampling the tree of 'foo(x)' does not return a pair
with NaN markers: the per-point `UnknownFunctionError` is not an
`EvaluatorError`, escapes `safe_evaluate`'s except clause, and aborts the
whole sampling call. -/
theorem C1_counterexample_unknown_function_propagates :
    parse_expression "foo(x)" = .ok (.functionCall "foo" (.var "x")) ∧
    adaptive_sampling (evaluate M0 (.functionCall "foo" (.var "x"))) (-1) 1 2 []
      (1/1000) = .error (.unknownFunctionError "foo") := by
  exact ⟨by decide, by decide⟩

/-- C9 amended: for each consecutive pair of the initial grid whose absolute
y-difference exceeds the tolerance, the sampler appends the ten evenly
spaced values spanning that pair inclusive of its endpoints (so eight of
them are new interior grid points — not ten, since the two endpoints are
already in the grid), and the returned y is exactly one re-evaluation of the
full refined grid (a single refinement pass, not iterated to convergence). -/
theorem C9_refinement_linspace :
    ∀ (func : ℚ → Except EvalErr ℚ) (x_min x_max : ℚ) (num_points : Nat)
      (mi : List ℚ) (tol : ℚ) (y : List (Option ℚ)) (i : Nat) (x0 x1 y0 y1 : ℚ)
      (xs : List ℚ) (ys : List (Option ℚ)),
      safe_evaluate func (initialGrid x_min x_max num_points mi) = .ok y →
      (initialGrid x_min x_max num_points mi)[i]? = some x0 →
      (initialGrid x_min x_max num_points mi)[i + 1]? = some x1 →
      y[i]? = some (some y0) → y[i + 1]? = some (some y1) →
      |y1 - y0| > tol →
      adaptive_sampling func x_min x_max num_points mi tol = .ok (xs, ys) →
      (∀ k : Nat, k ≤ 9 → x0 + k * (x1 - x0) / 9 ∈ xs) ∧
      safe_evaluate func xs = .ok ys := by
  intro func x_min x_max num_points mi tol y i x0 x1 y0 y1 xs ys hse hx0 hx1 hy0 hy1 htol h
  simp only [adaptive_sampling] at h
  split at h
  · rename_i e heq
    rw [hse] at heq
    exact absurd heq (by simp)
  · rename_i y2 hy2
    rw [hse] at hy2
    have hyy : y2 = y := by simpa using hy2.symm
    subst hyy
    split at h
    · exact absurd h (by simp)
    · rename_i y' hy'
      have hpair : xs = List.insertionSort (· ≤ ·)
          (sortedUnion (initialGrid x_min x_max num_points mi)
            (refineSegments tol (initialGrid x_min x_max num_points mi) y2)) ∧
          ys = y' := by
        constructor
        · have := h
          simp at this
          exact this.1.symm
        · have := h
          simp at this
          exact this.2.symm
      obtain ⟨hxs, hys⟩ := hpair
      subst hxs
      subst hys
      refine ⟨?_, hy'⟩
      intro k hk
      rw [List.mem_insertionSort, mem_sortedUnion]
      right
      exact mem_refineSegments tol i _ y2 x0 x1 y0 y1 hx0 hx1 hy0 hy1 htol _
        (mem_linspace10 x0 x1 k hk)

/-- C9 witness: sampling the identity tree "x" with a 3-point initial grid
[-100, 0, 100]; the pair (-100, 0) has |Δy| = 100 > 1/1000, and the value
-100 + 3·(0 - (-100))/9 from its ten-point linspace is in the refined grid,
whose y is the single re-evaluation of the 19 refined points. -/
theorem C9_refinement_witness :
    ((-100 : ℚ) + 3 * (0 - (-100)) / 9 ∈
      ([-100, -800/9, -700/9, -200/3, -500/9, -400/9, -100/3, -200/9, -100/9, 0,
        100/9, 200/9, 100/3, 400/9, 500/9, 200/3, 700/9, 800/9, 100] : List ℚ)) ∧
    safe_evaluate (evaluate M0 (.var "x"))
      ([-100, -800/9, -700/9, -200/3, -500/9, -400/9, -100/3, -200/9, -100/9, 0,
        100/9, 200/9, 100/3, 400/9, 500/9, 200/3, 700/9, 800/9, 100] : List ℚ) =
      .ok ([some (-100), some (-800/9), some (-700/9), some (-200/3), some (-500/9),
        some (-400/9), some (-100/3), some (-200/9), some (-100/9), some 0,
        some (100/9), some (200/9), some (100/3), some (400/9), some (500/9),
        some (200/3), some (700/9), some (800/9), some 100] : List (Option ℚ)) := by
  obtain ⟨h1, h2⟩ := C9_refinement_linspace (evaluate M0 (.var "x")) (-1) 1 2 []
    (1/1000) [some (-100), some 0, some 100] 0 (-100) 0 (-100) 0
    [-100, -800/9, -700/9, -200/3, -500/9, -400/9, -100/3, -200/9, -100/9, 0,
      100/9, 200/9, 100/3, 400/9, 500/9, 200/3, 700/9, 800/9, 100]
    [some (-100), some (-800/9), some (-700/9), some (-200/3), some (-500/9),
      some (-400/9), some (-100/3), some (-200/9), some (-100/9), some 0,
      some (100/9), some (200/9), some (100/3), some (400/9), some (500/9),
      some (200/3), some (700/9), some (800/9), some 100]
    (by decide) (by decide) (by decide) (by decide) (by decide) (by decide) (by decide)
  exact ⟨h1 3 (by omega), h2⟩

/-- C9 counterexample: the sampler does not insert ten additional grid points
between a refined pair: on the identity tree "x" with initial grid
[-100, 0, 100], the pair (-100, 0) exceeds the tolerance (|Δy| = 100), yet
the returned grid has exactly 8 points strictly between -100 and 0 (the
linspace endpoints already being grid points) and 19 points in total, not
3 + 2·10; and the refined grid still contains consecutive pairs exceeding
the tolerance, which a convergence-iterating sampler would have refined
again. -/
theorem C9_counterexample_eight_interior_points :
    initialGrid (-1) 1 2 [] = [-100, 0, 100] ∧
    safe_evaluate (evaluate M0 (.var "x")) (initialGrid (-1) 1 2 []) =
      .ok [some (-100), some 0, some 100] ∧
    |(0 : ℚ) - (-100)| > 1/1000 ∧
    (adaptive_sampling (evaluate M0 (.var "x")) (-1) 1 2 [] (1/1000)).map
      (fun p => ((p.1.filter (fun q => decide (-100 < q ∧ q < 0))).length, p.1.length)) =
      .ok (8, 19) ∧
    (8 : Nat) ≠ 10 ∧ (19 : Nat) ≠ 23 ∧
    (adaptive_sampling (evaluate M0 (.var "x")) (-1) 1 2 [] (1/1000)).map
      (fun p => decide (refineSegments (1/1000) p.1 p.2 = [])) = .ok false := by
  refine ⟨by decide, by decide, by decide, by decide, by decide, by decide, by decide⟩
